import Mathlib

/-!
Shallow embedding of the paired FASTQ chunk splitter and the single-record
reader of `src/src/fastqreader.cpp` (RabbitBM), together with theorems that
settle the claims of the specification against this code.

Modelling conventions:
* Machine bytes are `Char`s; a buffer in memory is a total function
  `Nat → Char`.  The bytes actually written to a buffer are kept as a
  `List Char`; positions past the written region read the stale byte
  `junkByte` (the C code reads whatever stale memory holds there).
* The C `while` loops that scan a buffer are modelled by structural
  recursion on an explicit fuel argument chosen so that the fuel never runs
  out exactly when the C loop terminates; the one loop with no termination
  guarantee at all (the `@`-scan of `GetNextRecordPos`) is modelled with a
  caller-supplied fuel and an `Option` result, `none` standing for the
  C loop running away past the buffer.
* `int64` quantities that can go negative in C (`chunkEnd`, sizes) are
  modelled as `Int`; conversions into list operations use `Int.toNat`.
* The byte sources (`FastqStream` / `gzread` / `fread`) are modelled as a
  `List Char` of bytes remaining: a read of `n` bytes takes
  `min n remaining` bytes, which is the eof contract the splitter assumes.
-/

/-- Stale memory byte used for reads past the written region of a buffer. -/
def junkByte : Char := Char.ofNat 0

/-- View the written bytes of a buffer as total memory: reads past the end
return the stale byte. -/
def dataAt (filled : List Char) (i : Nat) : Char := filled.getD i junkByte

/-- Number of newline bytes among `data 0, …, data (n-1)`.  This is the loop
of `count_line` (fastqreader.cpp:443-450) expressed recursively. -/
def nlCount (data : Nat → Char) : Nat → Nat
  | 0 => 0
  | n + 1 => nlCount data n + (if data n = '\n' then 1 else 0)

/-- `count_line(contenx, read_bytes)` (fastqreader.cpp:443-450): counts the
newline bytes in the first `read_bytes` bytes; a negative count counts
nothing, as the C `for` loop would. -/
def count_line (contenx : Nat → Char) (read_bytes : Int) : Nat :=
  nlCount contenx read_bytes.toNat

/-- The scanning loop of `SkipToEol` (fastqreader.cpp:455-456):
`while (data_[pos_] != '\n' && data_[pos_] != '\r' && pos_ < size_) ++pos_;`.
The byte at `pos_` is examined before the bound is checked, exactly as the
`&&` chain evaluates.  Fuel `size_ + 1 - pos_` always suffices: the loop can
only continue while `pos_ < size_`, and when the fuel runs out the position
returned coincides with the loop's own exit position. -/
def skipToEolLoop (data : Nat → Char) (size_ : Nat) : Nat → Nat → Nat
  | 0, pos_ => pos_
  | fuel + 1, pos_ =>
    if data pos_ ≠ '\n' ∧ data pos_ ≠ '\r' ∧ pos_ < size_ then
      skipToEolLoop data size_ fuel (pos_ + 1)
    else pos_

/-- `FastqChunkReaderPair::SkipToEol` (fastqreader.cpp:452-464).  Returns the
updated position and the updated `usesCrlf` member (the C function mutates
`pos_` by reference and the member field). -/
def SkipToEol (data : Nat → Char) (pos_ : Nat) (size_ : Nat) (usesCrlf : Bool) :
    Nat × Bool :=
  let p := skipToEolLoop data size_ (size_ + 1 - pos_) pos_
  if data p = '\r' ∧ p < size_ then
    if data (p + 1) = '\n' then (p + 1, true) else (p, usesCrlf)
  else (p, usesCrlf)

/-- Whether the scan of `SkipToEol` started at `pos_` lands on a `\r\n`
terminator (the condition under which fastqreader.cpp:458-462 latches the
`usesCrlf` member). -/
def seesCrlf (data : Nat → Char) (pos_ size_ : Nat) : Bool :=
  let p := skipToEolLoop data size_ (size_ + 1 - pos_) pos_
  decide (data p = '\r' ∧ p < size_ ∧ data (p + 1) = '\n')

/-- The largest buffer index `SkipToEol` reads.  The loop of lines 455-456
reads every index from `pos_` up to and including its exit position `p`
(each `&&` chain evaluates `data_[pos_]` first); line 458 reads `p` again
and, when `data_[p] = '\r'` with `p < size_`, line 459 reads `p + 1`. -/
def skipToEolMaxRead (data : Nat → Char) (pos_ size_ : Nat) : Nat :=
  let p := skipToEolLoop data size_ (size_ + 1 - pos_) pos_
  if data p = '\r' ∧ p < size_ then p + 1 else p

/-- The record-start scan of `GetNextRecordPos` (fastqreader.cpp:471-474):
`while (data_[pos_] != '@') { SkipToEol(data_, pos_, size_); ++pos_; }`.
This loop has no bound at all in the C code; fuel exhaustion (`none`) models
it running away.  The `usesCrlf` member is threaded through. -/
def findRecordStartLoop (data : Nat → Char) (size_ : Nat) :
    Nat → Nat → Bool → Option (Nat × Bool)
  | 0, pos_, crlf => if data pos_ = '@' then some (pos_, crlf) else none
  | fuel + 1, pos_, crlf =>
    if data pos_ = '@' then some (pos_, crlf)
    else
      let pc := SkipToEol data pos_ size_ crlf
      findRecordStartLoop data size_ fuel (pc.1 + 1) pc.2

/-- `FastqChunkReaderPair::GetNextRecordPos` (fastqreader.cpp:466-489).
Returns the found record-start position and the updated `usesCrlf` member.
The final `ASSERT(data_[pos_] == '+')` only prints a diagnostic in the C
code; the function returns `pos0` regardless, and so does the model. -/
def GetNextRecordPos (fuel : Nat) (data : Nat → Char) (pos_ : Nat) (size_ : Nat)
    (crlf : Bool) : Option (Nat × Bool) :=
  let s1 := SkipToEol data pos_ size_ crlf
  match findRecordStartLoop data size_ fuel (s1.1 + 1) s1.2 with
  | none => none
  | some (pos0, c0) =>
    let s2 := SkipToEol data pos0 size_ c0
    let pos2 := s2.1 + 1
    if data pos2 = '@' then some (pos2, s2.2)
    else
      let s3 := SkipToEol data pos2 size_ s2.2
      some (pos0, s3.2)

/-- The backward re-sync walk on the left cut (fastqreader.cpp:622-632):
decrement `difference` at each newline until it reaches `-1`, then step one
past that newline; bail out when `chunkEnd` drops below zero.  Fuel
`chunkEnd.toNat + 1` makes the fuel-exhaustion branch coincide with the
`chunkEnd < 0` exit of the C loop. -/
def resyncWalkLeft (data : Nat → Char) : Nat → Int → Int → Int
  | 0, _, chunkEnd => chunkEnd
  | fuel + 1, difference, chunkEnd =>
    if 0 ≤ chunkEnd then
      if data chunkEnd.toNat = '\n' then
        if difference - 1 = -1 then chunkEnd + 1
        else resyncWalkLeft data fuel (difference - 1) (chunkEnd - 1)
      else resyncWalkLeft data fuel difference (chunkEnd - 1)
    else chunkEnd

/-- The backward re-sync walk on the right cut (fastqreader.cpp:634-645),
incrementing `difference` towards `1`. -/
def resyncWalkRight (data : Nat → Char) : Nat → Int → Int → Int
  | 0, _, chunkEnd => chunkEnd
  | fuel + 1, difference, chunkEnd =>
    if 0 ≤ chunkEnd then
      if data chunkEnd.toNat = '\n' then
        if difference + 1 = 1 then chunkEnd + 1
        else resyncWalkRight data fuel (difference + 1) (chunkEnd - 1)
      else resyncWalkRight data fuel difference (chunkEnd - 1)
    else chunkEnd

/-- The re-synchronization of the two cut points
(fastqreader.cpp:618-646): count newlines up to each candidate cut, and walk
the cut of the side with the surplus backwards. -/
def resyncBlock (dataL dataR : Nat → Char) (chunkEnd chunkEnd_right : Int) :
    Int × Int :=
  let left_line_count : Int := count_line dataL chunkEnd
  let right_line_count : Int := count_line dataR chunkEnd_right
  let difference := left_line_count - right_line_count
  if 0 < difference then
    (resyncWalkLeft dataL (chunkEnd.toNat + 1) difference chunkEnd, chunkEnd_right)
  else if difference < 0 then
    (chunkEnd, resyncWalkRight dataR (chunkEnd_right.toNat + 1) difference chunkEnd_right)
  else (chunkEnd, chunkEnd_right)

/-- Outcome of reading one side in `readNextChunkPair_interleaved`:
`stuck` models the unbounded `@`-scan running away (fuel exhausted), `abort`
is the `return NULL` taken on a zero read with an empty chunk
(fastqreader.cpp:561-563 and 610-611), and `ok` carries `chunkEnd`,
`cbufSize`, the chunk's current `size`, the side-local eof flag and the
`usesCrlf` member after this side. -/
inductive SideResult where
  | stuck : SideResult
  | abort : SideResult
  | ok (chunkEnd cbufSize size_ : Int) (eofSide : Bool) (crlf : Bool) : SideResult
deriving DecidableEq

/-- One side of `readNextChunkPair_interleaved` (fastqreader.cpp:516-564 for
the left, 567-612 for the right): flush the swap buffer into the fresh
chunk, read `cbufSize - bufferSize` bytes, and classify full refill / short
read / zero read.  Returns the side outcome, the bytes now in the chunk
buffer, and the remaining stream. -/
def readSide (chunkCap tmpSwapBufferSize fuel : Nat) (swap stream : List Char)
    (crlf : Bool) : SideResult × List Char × List Char :=
  let sizeFlushed : Int := (swap.length : Int)
  let toRead : Int := (chunkCap : Int) - (swap.length : Int)
  let rd := stream.take (chunkCap - swap.length)
  let r : Int := (rd.length : Int)
  let filled := swap ++ rd
  let stream2 := stream.drop (chunkCap - swap.length)
  if 0 < r then
    if r = toRead then
      match GetNextRecordPos fuel (dataAt filled) (chunkCap - tmpSwapBufferSize)
          chunkCap crlf with
      | none => (SideResult.stuck, filled, stream2)
      | some pc =>
        (SideResult.ok (pc.1 : Int) (chunkCap : Int) sizeFlushed false pc.2,
         filled, stream2)
    else
      let sz : Int := sizeFlushed + r - 1 - (if crlf then 1 else 0)
      (SideResult.ok (sz + 1) (sz + 1) sz true crlf, filled, stream2)
  else
    if sizeFlushed = 0 then (SideResult.abort, filled, stream2)
    else
      (SideResult.ok (sizeFlushed + 1) (sizeFlushed + 1) sizeFlushed true crlf,
       filled, stream2)

/-- The state of a `FastqChunkReaderPair` between calls: the two swap
buffers (their valid bytes; `bufferSize_left/right` is the length), the
latched `eof` and `usesCrlf` members, and the bytes remaining in each
input stream. -/
structure SplitterState where
  swapBuffer_left : List Char
  swapBuffer_right : List Char
  eof : Bool
  usesCrlf : Bool
  streamLeft : List Char
  streamRight : List Char
deriving DecidableEq

/-- Result of one call to `readNextChunkPair_interleaved`: the emitted
chunk pair (the first `size` bytes of each chunk), or `none` for
"no more chunks"; the state after the call; and how many of the two
chunks acquired by this call were released back to their pools inside
the call. -/
structure StepOut where
  pairOut : Option (List Char × List Char)
  state : SplitterState
  released : Nat
deriving DecidableEq

/-- The bytes the C `std::copy(data + a, data + b, …)` copies out of a chunk
buffer (fastqreader.cpp:652 and 658): `b - a` bytes starting at `a`, read
through `dataAt` so that stale bytes past the written region are the junk
byte. -/
def sliceBytes (filled : List Char) (a b : Int) : List Char :=
  (List.range (b - a).toNat).map (fun i => dataAt filled (a.toNat + i))

/-- `FastqChunkReaderPair::readNextChunkPair_interleaved`
(fastqreader.cpp:492-670) as a state transition.  The outer `none` models
the call never returning (the unbounded `@`-scan ran away).  On the latched
`eof` path the two freshly acquired chunks are released (lines 507-514); on
the two zero-read abort paths the function returns NULL without releasing
them (lines 556-564 and 605-612). -/
def readNextChunkPair_interleaved (chunkCap tmpSwapBufferSize fuel : Nat)
    (s : SplitterState) : Option StepOut :=
  if s.eof then
    some ⟨none, s, 2⟩
  else
    match readSide chunkCap tmpSwapBufferSize fuel s.swapBuffer_left
        s.streamLeft s.usesCrlf with
    | (SideResult.stuck, _, _) => none
    | (SideResult.abort, _, streamL2) =>
      some ⟨none, { s with swapBuffer_left := [], streamLeft := streamL2 }, 0⟩
    | (SideResult.ok chunkEnd cbufSize sizeL eof1 crlf1, filledL, streamL2) =>
      match readSide chunkCap tmpSwapBufferSize fuel s.swapBuffer_right
          s.streamRight crlf1 with
      | (SideResult.stuck, _, _) => none
      | (SideResult.abort, _, streamR2) =>
        some ⟨none, { s with swapBuffer_left := [], swapBuffer_right := [],
                             usesCrlf := crlf1, streamLeft := streamL2,
                             streamRight := streamR2 }, 0⟩
      | (SideResult.ok chunkEnd_right cbufSize_right sizeR eof2 crlf2,
         filledR, streamR2) =>
        if eof1 && eof2 then
          some ⟨some (filledL.take sizeL.toNat, filledR.take sizeR.toNat),
                { s with swapBuffer_left := [], swapBuffer_right := [],
                         eof := true, usesCrlf := crlf2,
                         streamLeft := streamL2, streamRight := streamR2 }, 0⟩
        else
          let ends := resyncBlock (dataAt filledL) (dataAt filledR)
            chunkEnd chunkEnd_right
          let sizeL2 : Int := ends.1 - 1 - (if crlf2 then 1 else 0)
          let sizeR2 : Int := ends.2 - 1 - (if crlf2 then 1 else 0)
          some ⟨some (filledL.take sizeL2.toNat, filledR.take sizeR2.toNat),
                { s with swapBuffer_left := sliceBytes filledL ends.1 cbufSize,
                         swapBuffer_right :=
                           sliceBytes filledR ends.2 cbufSize_right,
                         usesCrlf := crlf2,
                         streamLeft := streamL2, streamRight := streamR2 }, 0⟩

/-! ## The single-stream line/record reader (`FastqReader`) -/

/-- The state of a `FastqReader`: the bytes not yet pulled into the refill
buffer, the refill buffer contents `mBuf[0, mBufDataLen)`, the consumed
prefix length `mBufUsedLen`, and the `mHasNoLineBreakAtEnd` flag. -/
structure ReaderState where
  stream : List Char
  buf : List Char
  bufUsedLen : Nat
  hasNoLineBreakAtEnd : Bool
deriving DecidableEq

/-- `FastqReader::readToBuf` (fastqreader.cpp:33-49) with the refill size as
a parameter (the C constant is `FQ_BUF_SIZE = 1 << 20`).  On a short refill
the C code inspects `mBuf[mBufDataLen - 1]`; for an empty refill that is a
stale byte, modelled by `junkByte`. -/
def readToBuf (bufSize : Nat) (s : ReaderState) : ReaderState :=
  let newBuf := s.stream.take bufSize
  { stream := s.stream.drop bufSize
    buf := newBuf
    bufUsedLen := 0
    hasNoLineBreakAtEnd :=
      if newBuf.length < bufSize ∧ dataAt newBuf (newBuf.length - 1) ≠ '\n' then
        true
      else s.hasNoLineBreakAtEnd }

/-- The terminator scan of `getLine` (fastqreader.cpp:103-108):
`while (end < mBufDataLen) { if (mBuf[end] != '\r' && mBuf[end] != '\n')
end++; else break; }` — the bound is checked before the byte.  Fuel
`buf.length + 1 - start` always suffices. -/
def scanToTerm (buf : List Char) : Nat → Nat → Nat
  | 0, e => e
  | fuel + 1, e =>
    if e < buf.length then
      if dataAt buf e ≠ '\r' ∧ dataAt buf e ≠ '\n' then
        scanToTerm buf fuel (e + 1)
      else e
    else e

/-- First terminator position at or after `start` in `buf` (or
`buf.length`). -/
def scanTo (buf : List Char) (start : Nat) : Nat :=
  scanToTerm buf (buf.length + 1 - start) start

/-- The refill loop of `getLine` (fastqreader.cpp:129-155), entered when the
line is not contained in the current buffer: refill, scan again, append.
Note the crlf handling of this path (line 147) checks only
`mBuf[end] == '\n'` — without requiring the terminator to be `'\r'`. -/
def getLineLoop (bufSize : Nat) : Nat → List Char → ReaderState →
    List Char × ReaderState
  | 0, str, s => (str, s)
  | fuel + 1, str, s0 =>
    let s := readToBuf bufSize s0
    let e1 := scanTo s.buf 0
    if e1 < s.buf.length ∨ s.buf.length < bufSize then
      let str2 := str ++ s.buf.take e1
      let e2 := e1 + 1
      let e3 := if e2 < s.buf.length - 1 ∧ dataAt s.buf e2 = '\n' then e2 + 1
                else e2
      (str2, { s with bufUsedLen := e3 })
    else
      getLineLoop bufSize fuel (str ++ s.buf) s

/-- `FastqReader::getLine` (fastqreader.cpp:95-158).  Returns the line and
the updated reader state.  The crlf handling of the in-buffer path
(line 118) requires `end < mBufDataLen - 1`, so a `\r\n` whose `\n` is the
last byte of the buffered data is not consumed as one terminator. -/
def getLine (bufSize fuel : Nat) (s : ReaderState) : List Char × ReaderState :=
  let start := s.bufUsedLen
  let e1 := scanTo s.buf start
  if e1 < s.buf.length ∨ s.buf.length < bufSize then
    let line := (s.buf.drop start).take (e1 - start)
    let e2 := e1 + 1
    let e3 := if e2 < s.buf.length - 1 ∧ dataAt s.buf (e2 - 1) = '\r' ∧
                 dataAt s.buf e2 = '\n' then e2 + 1
              else e2
    (line, { s with bufUsedLen := e3 })
  else
    getLineLoop bufSize fuel (s.buf.drop start) s

/-- `FastqReader::eof` (fastqreader.cpp:160-166): the stream reports eof
once a refill has come up short, i.e. all bytes are gone and the last
refill did not fill the buffer. -/
def mEof (bufSize : Nat) (s : ReaderState) : Bool :=
  s.stream.isEmpty && decide (s.buf.length < bufSize)

/-- A parsed FASTQ record: the four line strings
`(name, sequence, strand, quality)`. -/
structure FqRecord where
  name : List Char
  seq : List Char
  strand : List Char
  quality : List Char
deriving DecidableEq

/-- The name-seeking loop of `FastqReader::read` (fastqreader.cpp:180-182):
re-read lines while the current one is empty (and eof has not been hit) or
does not start with `@`. -/
def nameLoop (bufSize fuel : Nat) : Nat → List Char → ReaderState →
    List Char × ReaderState
  | 0, name, s => (name, s)
  | n + 1, name, s =>
    if (name = [] ∧ ¬(s.buf.length ≤ s.bufUsedLen ∧ mEof bufSize s = true)) ∨
       (name ≠ [] ∧ name.headD junkByte ≠ '@') then
      let g := getLine bufSize fuel s
      nameLoop bufSize fuel n g.1 g.2
    else (name, s)

/-- `FastqReader::read` (fastqreader.cpp:168-208).  The third component is
true exactly when the quality/sequence length-mismatch diagnostic of lines
196-202 is printed on the error stream; in that case the result is `none`
(the C code returns NULL and the process continues). -/
def readRecord (bufSize fuel : Nat) (hasQuality : Bool) (s : ReaderState) :
    Option FqRecord × ReaderState × Bool :=
  if s.buf.length ≤ s.bufUsedLen ∧ mEof bufSize s = true then (none, s, false)
  else
    let g0 := getLine bufSize fuel s
    let nl := nameLoop bufSize fuel fuel g0.1 g0.2
    if nl.1 = [] then (none, nl.2, false)
    else
      let gs := getLine bufSize fuel nl.2
      let gt := getLine bufSize fuel gs.2
      if hasQuality then
        let gq := getLine bufSize fuel gt.2
        if gq.1.length ≠ gs.1.length then (none, gq.2, true)
        else (some ⟨nl.1, gs.1, gt.1, gq.1⟩, gq.2, false)
      else (some ⟨nl.1, gs.1, gt.1, List.replicate gs.1.length 'K'⟩, gt.2, false)

/-- `FastqReaderPair::read` in the non-interleaved mode
(fastqreader.cpp:298-310): read one record from each side; if either comes
up empty, return no pair (the record read from the other side is dropped).
Returns the pair and the two post-read reader states. -/
def readPair (bufSize fuel : Nat) (hasQuality : Bool) (sL sR : ReaderState) :
    Option (FqRecord × FqRecord) × ReaderState × ReaderState :=
  let l := readRecord bufSize fuel hasQuality sL
  let r := readRecord bufSize fuel hasQuality sR
  match l.1, r.1 with
  | some lv, some rv => (some (lv, rv), l.2.1, r.2.1)
  | _, _ => (none, l.2.1, r.2.1)

/-! ## Well-formedness predicates for FASTQ layout in a buffer -/

/-- A line's content holds no terminator byte. -/
def lineFree (L : List Char) : Prop := ∀ c ∈ L, c ≠ '\n' ∧ c ≠ '\r'

/-- The bytes `L` followed by a `'\n'` terminator sit at offset `a` of the
buffer. -/
def lineAt (data : Nat → Char) (a : Nat) (L : List Char) : Prop :=
  (∀ i, i < L.length → data (a + i) = L.getD i junkByte) ∧ lineFree L ∧
    data (a + L.length) = '\n'

/-- Byte length of a four-line record including its four terminators. -/
def recLen (r : FqRecord) : Nat :=
  r.name.length + r.seq.length + r.strand.length + r.quality.length + 4

/-- The four lines of record `r` sit consecutively at offset `a`. -/
def recordAt (data : Nat → Char) (a : Nat) (r : FqRecord) : Prop :=
  lineAt data a r.name ∧
  lineAt data (a + r.name.length + 1) r.seq ∧
  lineAt data (a + r.name.length + 1 + r.seq.length + 1) r.strand ∧
  lineAt data (a + r.name.length + 1 + r.seq.length + 1 + r.strand.length + 1)
    r.quality

instance (L : List Char) : Decidable (lineFree L) := by
  unfold lineFree
  infer_instance

instance (data : Nat → Char) (a : Nat) (L : List Char) :
    Decidable (lineAt data a L) := by
  unfold lineAt
  infer_instance

instance (data : Nat → Char) (a : Nat) (r : FqRecord) :
    Decidable (recordAt data a r) := by
  unfold recordAt
  infer_instance

/-! ## Concrete inputs used by counterexamples and witnesses -/

/-- A left (and right) input file of three well-formed records. -/
def exFile : List Char := ("@a\nCC\n+\nFF\n@a\nCC\n+\nFF\n@a\nCC\n+\nFF\n").toList

/-- Fresh splitter state on `exFile` for both sides. -/
def exState0 : SplitterState := ⟨[], [], false, false, exFile, exFile⟩

/-- First chunk emitted from `exFile` with capacity 24, reserve 3. -/
def exChunk1 : List Char := ("@a\nCC\n+\nFF\n@a\nCC\n+\nFF").toList

/-- Splitter state after the first pair on `exFile`. -/
def exState1 : SplitterState :=
  ⟨("@a").toList, ("@a").toList, false, false,
   ("\nCC\n+\nFF\n").toList, ("\nCC\n+\nFF\n").toList⟩

/-- Second (final) chunk emitted from `exFile`. -/
def exChunk2 : List Char := ("@a\nCC\n+\nFF").toList

/-- Splitter state after the second pair on `exFile`: eof latched. -/
def exState2 : SplitterState := ⟨[], [], true, false, [], []⟩

/-- A buffer `a`, `\r`, then newlines: the scan stops on the `\r` at
index 1 and the crlf check reads index 2 = `size_`. -/
def dataNoTermA : Nat → Char :=
  fun i => if i = 0 then 'a' else if i = 1 then '\r' else '\n'

/-- Same two in-bounds bytes as `dataNoTermA`, different byte at index 2. -/
def dataNoTermB : Nat → Char :=
  fun i => if i = 0 then 'a' else if i = 1 then '\r' else 'x'

/-- A two-byte buffer `X\n` (size 2) followed by out-of-bounds bytes with a
record start right after the end. -/
def dataProbeA : Nat → Char :=
  fun i => if i = 0 then 'X' else if i = 1 then '\n' else
           if i = 2 then 'B' else '@'

/-- Same bytes as `dataProbeA` up to index 2 = `size_`, different beyond. -/
def dataProbeB : Nat → Char :=
  fun i => if i = 0 then 'X' else if i = 1 then '\n' else
           if i = 2 then 'B' else if i = 3 then 'C' else '@'

/-- A pair of `\r\n`-terminated records for both input files. -/
def crlfFile : List Char :=
  ("@a\r\nCC\r\n+\r\nFF\r\n@a\r\nCC\r\n+\r\nFF\r\n").toList

/-- Fresh splitter state on `crlfFile` for both sides. -/
def crlfState0 : SplitterState := ⟨[], [], false, false, crlfFile, crlfFile⟩

/-- Reader freshly opened (first refill done) on `ab\r\nc\n` with refill
size 4, so the `\n` of the `\r\n` is the last byte of the refill. -/
def c8State0 : ReaderState := readToBuf 4 ⟨("ab\r\nc\n").toList, [], 0, false⟩

/-- Reader freshly opened on a 6-byte line with refill size 4. -/
def c8LongState : ReaderState :=
  readToBuf 4 ⟨("abcdef\nZ").toList, [], 0, false⟩

/-- Reader freshly opened on a record whose quality line is shorter than its
sequence line. -/
def c9State : ReaderState :=
  readToBuf 64 ⟨("@x\nAC\n+\nF\n").toList, [], 0, false⟩

/-- Left reader holding one whole record (for the pair-reader witness). -/
def c10Left : ReaderState :=
  readToBuf 64 ⟨("@x\nAC\n+\nFF\n").toList, [], 0, false⟩

/-- Right reader at end of an empty file. -/
def c10Right : ReaderState := readToBuf 64 ⟨[], [], 0, false⟩

/-- Buffer holding a record whose quality starts with `@`, then a second
record: `@r1`, `AC`, `+`, `@F`, then `@r2`, `GG`, `+`, `FF`. -/
def c3Buf : List Char := ("@r1\nAC\n+\n@F\n@r2\nGG\n+\nFF\n").toList

/-- First record of `c3Buf`: its quality line starts with `@`. -/
def c3Rec1 : FqRecord := ⟨("@r1").toList, ("AC").toList, ("+").toList, ("@F").toList⟩

/-- Second record of `c3Buf`. -/
def c3Rec2 : FqRecord := ⟨("@r2").toList, ("GG").toList, ("+").toList, ("FF").toList⟩

/-! ## Claim C4: the latched eof path -/

/-- Claim C4: once the splitter's `eof` flag is latched, a call to
`readNextChunkPair_interleaved` releases both freshly acquired chunks
(2 releases), returns "no more chunks", and leaves the state — including
the latched flag and both unread streams — unchanged, so every subsequent
call behaves the same way and no bytes are ever read again. -/
theorem claim_C4 (chunkCap tmpSwapBufferSize fuel : Nat) (s : SplitterState)
    (h : s.eof = true) :
    readNextChunkPair_interleaved chunkCap tmpSwapBufferSize fuel s =
      some ⟨none, s, 2⟩ := by
  unfold readNextChunkPair_interleaved
  rw [h]
  simp

/-- Witness for C4 at a concrete latched state. -/
theorem claim_C4_witness :
    readNextChunkPair_interleaved 24 3 32 exState2 = some ⟨none, exState2, 2⟩ :=
  claim_C4 24 3 32 exState2 (by decide)

/-! ## Claim C5: the zero-read abort path leaks both chunks -/

/-- Claim C5: evaluating the code at the failing input.  A first call on a
pair of empty inputs (no carry-over, `eof` not yet latched) takes the
zero-read abort path of fastqreader.cpp:556-564: it returns "no more
chunks" having released 0 of the 2 chunks acquired in the call, whereas the
latched-eof path (lines 507-514) releases both.  Acquire and release counts
therefore differ at end-of-stream. -/
theorem claim_C5 :
    readNextChunkPair_interleaved 4 1 8 ⟨[], [], false, false, [], []⟩ =
      some ⟨none, ⟨[], [], false, false, [], []⟩, 0⟩ ∧
    (0 : Nat) ≠ 2 ∧
    readNextChunkPair_interleaved 4 1 8 ⟨[], [], true, false, [], []⟩ =
      some ⟨none, ⟨[], [], true, false, [], []⟩, 2⟩ := by
  refine ⟨by decide, by decide, by decide⟩

/-! ## Claim C6: SkipToEol and GetNextRecordPos read past size_ -/

/-- Claim C6: evaluating the code at the failing input.  `SkipToEol` on the
two-byte buffer `a\r` (size 2) reads index 2 = `size_` (its maximal read
index is 2, not < 2), and its result genuinely depends on that
out-of-bounds byte: two memories agreeing on all indices below `size_`
give different results.  `GetNextRecordPos` is worse: its result differs
on two memories that agree on every index up to and including `size_`,
so its `@`-scan reads unboundedly far past the buffer. -/
theorem claim_C6 :
    skipToEolMaxRead dataNoTermA 0 2 = 2 ∧ ¬(2 < 2) ∧
    dataNoTermA 0 = dataNoTermB 0 ∧ dataNoTermA 1 = dataNoTermB 1 ∧
    SkipToEol dataNoTermA 0 2 false ≠ SkipToEol dataNoTermB 0 2 false ∧
    dataProbeA 0 = dataProbeB 0 ∧ dataProbeA 1 = dataProbeB 1 ∧
    dataProbeA 2 = dataProbeB 2 ∧
    GetNextRecordPos 8 dataProbeA 0 2 false ≠
      GetNextRecordPos 8 dataProbeB 0 2 false := by
  decide

/-! ## Claim C8: the \r\n at a refill boundary yields a spurious empty line -/

/-- Claim C8: evaluating the code at the failing input.  With refill size 4
on the stream `ab\r\nc\n`, the `\n` of the `\r\n` terminator is the last
byte of the first refill; the guard `end < mBufDataLen - 1` of
fastqreader.cpp:118 then fails, the `\n` is not consumed with the `\r`, and
the second `getLine` returns a spurious empty line (the file's second line
is `c`, which only the third call returns).  The final conjunct shows the
long-line path (successive refills concatenated) at the same refill size. -/
theorem claim_C8 :
    (getLine 4 8 c8State0).1 = ("ab").toList ∧
    (getLine 4 8 (getLine 4 8 c8State0).2).1 = ([] : List Char) ∧
    (getLine 4 8 (getLine 4 8 (getLine 4 8 c8State0).2).2).1 = ("c").toList ∧
    ([] : List Char) ≠ ("c").toList ∧
    (getLine 4 8 c8LongState).1 = ("abcdef").toList := by
  refine ⟨by decide, by decide, by decide, by decide, by decide⟩

/-! ## Claim C2 counterexample: plain concatenation loses one byte per cut -/

/-- Counterexample to claim C2: over the complete session on `exFile`
(capacity 24, reserve 3) the splitter emits exactly two chunk pairs and
then latches eof, but the concatenation of the emitted left chunks differs
from the left file both as-is and modulo the trailing newline: the `\n` at
the first cut (byte 21) and the final byte of the file are dropped. -/
theorem claim_C2_cex :
    readNextChunkPair_interleaved 24 3 32 exState0 =
      some ⟨some (exChunk1, exChunk1), exState1, 0⟩ ∧
    readNextChunkPair_interleaved 24 3 32 exState1 =
      some ⟨some (exChunk2, exChunk2), exState2, 0⟩ ∧
    exState2.eof = true ∧
    exChunk1 ++ exChunk2 ≠ exFile ∧
    exChunk1 ++ exChunk2 ≠ exFile.dropLast := by
  refine ⟨by decide, by decide, by decide, by decide, by decide⟩

/-! ## Claim C9: quality/sequence length mismatch -/

/-- Claim C9: when `FastqReader::read` (with quality) obtains a quality line
whose length differs from the sequence line's, it prints the diagnostic of
fastqreader.cpp:196-202 on the error stream (third component `true`) and
returns no record (`none`); the reader state remains usable — the call
returns normally rather than terminating the session. -/
theorem claim_C9 (bufSize fuel : Nat) (s : ReaderState)
    (n0 : List Char) (s0 : ReaderState) (name : List Char) (s1 : ReaderState)
    (sequence : List Char) (s2 : ReaderState) (strand : List Char)
    (s3 : ReaderState) (quality : List Char) (s4 : ReaderState)
    (hentry : ¬(s.buf.length ≤ s.bufUsedLen ∧ mEof bufSize s = true))
    (hg0 : getLine bufSize fuel s = (n0, s0))
    (hnm : nameLoop bufSize fuel fuel n0 s0 = (name, s1))
    (hname : ¬(name = []))
    (hgs : getLine bufSize fuel s1 = (sequence, s2))
    (hgt : getLine bufSize fuel s2 = (strand, s3))
    (hgq : getLine bufSize fuel s3 = (quality, s4))
    (hmis : quality.length ≠ sequence.length) :
    readRecord bufSize fuel true s = (none, s4, true) := by
  unfold readRecord
  rw [if_neg hentry]
  simp only [hg0, hnm, hgs, hgt, hgq]
  rw [if_neg hname]
  simp only [if_true]
  rw [if_pos hmis]

/-- Witness for C9: the concrete reader on `@x\nAC\n+\nF\n` (quality length
1, sequence length 2) returns no record with the diagnostic emitted. -/
theorem claim_C9_witness :
    (readRecord 64 8 true c9State).1 = none ∧
    (readRecord 64 8 true c9State).2.2 = true := by
  have h := claim_C9 64 8 c9State _ _ _ _ _ _ _ _ _ _
    (by decide) rfl rfl (by decide) rfl rfl rfl (by decide)
  rw [h]
  exact ⟨rfl, rfl⟩

/-! ## Claim C10: the pair reader drops the surplus record -/

/-- Claim C10: `FastqReaderPair::read` (non-interleaved) yields a pair
exactly when both underlying readers yield a record on that call; when one
side comes up empty the call returns no pair, yet the other side's reader
state is still the post-read state — the surplus record was consumed from
its stream and discarded, so no later call can emit it. -/
theorem claim_C10 (bufSize fuel : Nat) (hasQ : Bool) (sL sR : ReaderState) :
    ((readPair bufSize fuel hasQ sL sR).1.isSome ↔
      ((readRecord bufSize fuel hasQ sL).1.isSome ∧
       (readRecord bufSize fuel hasQ sR).1.isSome)) ∧
    ((readRecord bufSize fuel hasQ sR).1 = none →
      (readPair bufSize fuel hasQ sL sR).1 = none ∧
      (readPair bufSize fuel hasQ sL sR).2.1 =
        (readRecord bufSize fuel hasQ sL).2.1) ∧
    ((readRecord bufSize fuel hasQ sL).1 = none →
      (readPair bufSize fuel hasQ sL sR).1 = none ∧
      (readPair bufSize fuel hasQ sL sR).2.2 =
        (readRecord bufSize fuel hasQ sR).2.1) := by
  unfold readPair
  rcases hl : (readRecord bufSize fuel hasQ sL).1 with _ | lv <;>
    rcases hr : (readRecord bufSize fuel hasQ sR).1 with _ | rv <;>
      simp [hl, hr]

/-- Witness for C10: left file holds one record, right file none; the pair
read returns no pair and the left state has advanced past the record. -/
theorem claim_C10_witness :
    (readPair 64 8 false c10Left c10Right).1 = none ∧
    (readPair 64 8 false c10Left c10Right).2.1 =
      (readRecord 64 8 false c10Left).2.1 := by
  exact (claim_C10 64 8 false c10Left c10Right).2.1 (by decide)

/-! ## Let-free unfolding equations (all hold by `rfl`) -/

/-- `SkipToEol` with its local binding expanded. -/
theorem SkipToEol_def (data : Nat → Char) (pos_ size_ : Nat) (b : Bool) :
    SkipToEol data pos_ size_ b =
      if data (skipToEolLoop data size_ (size_ + 1 - pos_) pos_) = '\r' ∧
          skipToEolLoop data size_ (size_ + 1 - pos_) pos_ < size_ then
        if data (skipToEolLoop data size_ (size_ + 1 - pos_) pos_ + 1) = '\n' then
          (skipToEolLoop data size_ (size_ + 1 - pos_) pos_ + 1, true)
        else (skipToEolLoop data size_ (size_ + 1 - pos_) pos_, b)
      else (skipToEolLoop data size_ (size_ + 1 - pos_) pos_, b) := rfl

/-- `findRecordStartLoop` step equation with its local binding expanded. -/
theorem findRecordStartLoop_succ (data : Nat → Char) (size_ fuel pos_ : Nat)
    (crlf : Bool) :
    findRecordStartLoop data size_ (fuel + 1) pos_ crlf =
      if data pos_ = '@' then some (pos_, crlf)
      else findRecordStartLoop data size_ fuel
        ((SkipToEol data pos_ size_ crlf).1 + 1)
        (SkipToEol data pos_ size_ crlf).2 := rfl

/-- `GetNextRecordPos` with its local bindings expanded. -/
theorem GetNextRecordPos_def (fuel : Nat) (data : Nat → Char)
    (pos_ size_ : Nat) (crlf : Bool) :
    GetNextRecordPos fuel data pos_ size_ crlf =
      match findRecordStartLoop data size_ fuel
          ((SkipToEol data pos_ size_ crlf).1 + 1)
          (SkipToEol data pos_ size_ crlf).2 with
      | none => none
      | some (pos0, c0) =>
        if data ((SkipToEol data pos0 size_ c0).1 + 1) = '@' then
          some ((SkipToEol data pos0 size_ c0).1 + 1,
                (SkipToEol data pos0 size_ c0).2)
        else
          some (pos0,
            (SkipToEol data ((SkipToEol data pos0 size_ c0).1 + 1) size_
              (SkipToEol data pos0 size_ c0).2).2) := rfl

/-- `readSide` with its local bindings expanded. -/
theorem readSide_def (chunkCap tmp fuel : Nat) (swap stream : List Char)
    (crlf : Bool) :
    readSide chunkCap tmp fuel swap stream crlf =
      if (0 : Int) < ((stream.take (chunkCap - swap.length)).length : Int) then
        if ((stream.take (chunkCap - swap.length)).length : Int) =
            (chunkCap : Int) - (swap.length : Int) then
          match GetNextRecordPos fuel
              (dataAt (swap ++ stream.take (chunkCap - swap.length)))
              (chunkCap - tmp) chunkCap crlf with
          | none =>
            (SideResult.stuck, swap ++ stream.take (chunkCap - swap.length),
             stream.drop (chunkCap - swap.length))
          | some pc =>
            (SideResult.ok (pc.1 : Int) (chunkCap : Int) (swap.length : Int)
              false pc.2,
             swap ++ stream.take (chunkCap - swap.length),
             stream.drop (chunkCap - swap.length))
        else
          (SideResult.ok
            ((swap.length : Int) +
              ((stream.take (chunkCap - swap.length)).length : Int) - 1 -
              (if crlf then 1 else 0) + 1)
            ((swap.length : Int) +
              ((stream.take (chunkCap - swap.length)).length : Int) - 1 -
              (if crlf then 1 else 0) + 1)
            ((swap.length : Int) +
              ((stream.take (chunkCap - swap.length)).length : Int) - 1 -
              (if crlf then 1 else 0))
            true crlf,
           swap ++ stream.take (chunkCap - swap.length),
           stream.drop (chunkCap - swap.length))
      else
        if (swap.length : Int) = 0 then
          (SideResult.abort, swap ++ stream.take (chunkCap - swap.length),
           stream.drop (chunkCap - swap.length))
        else
          (SideResult.ok ((swap.length : Int) + 1) ((swap.length : Int) + 1)
            (swap.length : Int) true crlf,
           swap ++ stream.take (chunkCap - swap.length),
           stream.drop (chunkCap - swap.length)) := rfl

/-! ## Crlf-latch lemmas (claim C7) -/

/-- Once `usesCrlf` is true, `SkipToEol` returns it true. -/
theorem skipToEol_snd_true (data : Nat → Char) (pos_ size_ : Nat) :
    (SkipToEol data pos_ size_ true).2 = true := by
  rw [SkipToEol_def]
  split
  · split <;> rfl
  · rfl

/-- The crlf flag returned by `SkipToEol` is the incoming flag or-ed with
"the scan landed on a `\r\n` terminator". -/
theorem skipToEol_snd_eq (data : Nat → Char) (pos_ size_ : Nat) (b : Bool) :
    (SkipToEol data pos_ size_ b).2 = (b || seesCrlf data pos_ size_) := by
  rw [SkipToEol_def]
  unfold seesCrlf
  by_cases h1 : data (skipToEolLoop data size_ (size_ + 1 - pos_) pos_) = '\r' ∧
      skipToEolLoop data size_ (size_ + 1 - pos_) pos_ < size_
  · rw [if_pos h1]
    by_cases h2 : data (skipToEolLoop data size_ (size_ + 1 - pos_) pos_ + 1) = '\n'
    · rw [if_pos h2]
      simp [h1.1, h1.2, h2]
    · rw [if_neg h2]
      simp [h2]
  · rw [if_neg h1]
    have hno : ¬(data (skipToEolLoop data size_ (size_ + 1 - pos_) pos_) = '\r' ∧
        skipToEolLoop data size_ (size_ + 1 - pos_) pos_ < size_ ∧
        data (skipToEolLoop data size_ (size_ + 1 - pos_) pos_ + 1) = '\n') :=
      fun h => h1 ⟨h.1, h.2.1⟩
    simp [hno]

/-- When no byte of the memory is `\r`, `SkipToEol` leaves the flag alone. -/
theorem skipToEol_snd_noCR (data : Nat → Char) (hcr : ∀ i, data i ≠ '\r') :
    ∀ pos_ size_ b, (SkipToEol data pos_ size_ b).2 = b := by
  intro pos_ size_ b
  rw [SkipToEol_def]
  rw [if_neg (fun hc => hcr _ hc.1)]

/-- The record-start scan keeps a latched flag latched. -/
theorem findRecordStartLoop_snd_true (data : Nat → Char) (size_ : Nat) :
    ∀ fuel pos_ p c,
      findRecordStartLoop data size_ fuel pos_ true = some (p, c) → c = true := by
  intro fuel
  induction fuel with
  | zero =>
    intro pos_ p c h
    unfold findRecordStartLoop at h
    split at h
    · cases h; rfl
    · cases h
  | succ n ih =>
    intro pos_ p c h
    rw [findRecordStartLoop_succ] at h
    split at h
    · cases h; rfl
    · rw [skipToEol_snd_true] at h
      exact ih _ _ _ h

/-- The record-start scan leaves the flag alone on `\r`-free memory. -/
theorem findRecordStartLoop_snd_noCR (data : Nat → Char) (size_ : Nat)
    (hcr : ∀ i, data i ≠ '\r') :
    ∀ fuel pos_ b p c,
      findRecordStartLoop data size_ fuel pos_ b = some (p, c) → c = b := by
  intro fuel
  induction fuel with
  | zero =>
    intro pos_ b p c h
    unfold findRecordStartLoop at h
    split at h
    · cases h; rfl
    · cases h
  | succ n ih =>
    intro pos_ b p c h
    rw [findRecordStartLoop_succ] at h
    split at h
    · cases h; rfl
    · rw [skipToEol_snd_noCR data hcr] at h
      exact ih _ _ _ _ h

/-- `GetNextRecordPos` keeps a latched flag latched. -/
theorem getNextRecordPos_snd_true (fuel : Nat) (data : Nat → Char)
    (pos_ size_ : Nat) (p : Nat) (c : Bool)
    (h : GetNextRecordPos fuel data pos_ size_ true = some (p, c)) :
    c = true := by
  rw [GetNextRecordPos_def] at h
  split at h
  · cases h
  · next pos0 c0 heq =>
    rw [skipToEol_snd_true] at heq
    have hc0 := findRecordStartLoop_snd_true data size_ fuel _ _ _ heq
    subst hc0
    split at h
    · simp only [skipToEol_snd_true] at h
      cases h; rfl
    · simp only [skipToEol_snd_true] at h
      cases h; rfl

/-- `GetNextRecordPos` leaves the flag alone on `\r`-free memory. -/
theorem getNextRecordPos_snd_noCR (fuel : Nat) (data : Nat → Char)
    (pos_ size_ : Nat) (b : Bool) (p : Nat) (c : Bool)
    (hcr : ∀ i, data i ≠ '\r')
    (h : GetNextRecordPos fuel data pos_ size_ b = some (p, c)) :
    c = b := by
  rw [GetNextRecordPos_def] at h
  split at h
  · cases h
  · next pos0 c0 heq =>
    rw [skipToEol_snd_noCR data hcr] at heq
    have hc0 := findRecordStartLoop_snd_noCR data size_ hcr fuel _ _ _ _ heq
    subst hc0
    split at h
    · simp only [skipToEol_snd_noCR data hcr] at h
      cases h; rfl
    · simp only [skipToEol_snd_noCR data hcr] at h
      cases h; rfl

/-- A side read keeps a latched flag latched. -/
theorem readSide_crlf_true (chunkCap tmp fuel : Nat) (swap stream : List Char)
    {ce cb sz : Int} {e c : Bool} {fl s2 : List Char}
    (h : readSide chunkCap tmp fuel swap stream true =
          (SideResult.ok ce cb sz e c, fl, s2)) :
    c = true := by
  rw [readSide_def] at h
  split at h
  · split at h
    · split at h
      · simp at h
      · next pc heq =>
        have hpc : pc.2 = true :=
          getNextRecordPos_snd_true fuel _ _ _ pc.1 pc.2 heq
        simp only [Prod.mk.injEq, SideResult.ok.injEq] at h
        rw [← h.1.2.2.2.2]
        exact hpc
    · simp only [Prod.mk.injEq, SideResult.ok.injEq] at h
      rw [← h.1.2.2.2.2]
  · split at h
    · simp at h
    · simp only [Prod.mk.injEq, SideResult.ok.injEq] at h
      rw [← h.1.2.2.2.2]

/-- Bytes of the chunk memory are never `\r` when neither the carry-over
nor the stream contains one (the stale byte is not `\r` either). -/
theorem dataAt_noCR (l : List Char) (h : '\r' ∉ l) : ∀ i, dataAt l i ≠ '\r' := by
  intro i
  unfold dataAt
  by_cases hi : i < l.length
  · rw [List.getD_eq_getElem l junkByte hi]
    intro hc
    exact h (hc ▸ List.getElem_mem hi)
  · rw [List.getD_eq_default l junkByte (Nat.le_of_not_lt hi)]
    decide

/-- A side read leaves the flag alone when its memory is `\r`-free. -/
theorem readSide_crlf_noCR (chunkCap tmp fuel : Nat) (swap stream : List Char)
    (b : Bool) {ce cb sz : Int} {e c : Bool} {fl s2 : List Char}
    (hsw : '\r' ∉ swap) (hst : '\r' ∉ stream)
    (h : readSide chunkCap tmp fuel swap stream b =
          (SideResult.ok ce cb sz e c, fl, s2)) :
    c = b := by
  have hmem : '\r' ∉ swap ++ stream.take (chunkCap - swap.length) := by
    intro hc
    rcases List.mem_append.1 hc with h1 | h2
    · exact hsw h1
    · exact hst (List.take_subset _ _ h2)
  rw [readSide_def] at h
  split at h
  · split at h
    · split at h
      · simp at h
      · next pc heq =>
        have hpc : pc.2 = b :=
          getNextRecordPos_snd_noCR fuel _ _ _ b pc.1 pc.2
            (dataAt_noCR _ hmem) heq
        simp only [Prod.mk.injEq, SideResult.ok.injEq] at h
        rw [← h.1.2.2.2.2]
        exact hpc
    · simp only [Prod.mk.injEq, SideResult.ok.injEq] at h
      rw [← h.1.2.2.2.2]
  · split at h
    · simp at h
    · simp only [Prod.mk.injEq, SideResult.ok.injEq] at h
      rw [← h.1.2.2.2.2]

/-! ## Claim C7: terminator latching -/

/-- Claim C7: the `usesCrlf` flag is latched exactly by seeing a `\r\n`
terminator.  (1) Once true it survives every call (every later size
adjustment reads the latched value).  (2) A single `SkipToEol` returns the
incoming flag or-ed with "this scan's line terminator was `\r\n`", so the
flag becomes true exactly when the first `\r\n` is seen and never
otherwise.  (3) If neither file nor carry-over holds a `\r` byte, a call
leaves the flag unchanged — pure-`\n` input never latches it.  (4) On a
concrete pair of `\r\n`-terminated files the very first call, whose first
terminator seen is `\r\n`, latches the flag. -/
theorem claim_C7 :
    (∀ chunkCap tmp fuel s out,
        readNextChunkPair_interleaved chunkCap tmp fuel s = some out →
        s.usesCrlf = true → out.state.usesCrlf = true) ∧
    (∀ data pos_ size_ b,
        (SkipToEol data pos_ size_ b).2 = (b || seesCrlf data pos_ size_)) ∧
    (∀ chunkCap tmp fuel s out,
        readNextChunkPair_interleaved chunkCap tmp fuel s = some out →
        '\r' ∉ s.swapBuffer_left → '\r' ∉ s.streamLeft →
        '\r' ∉ s.swapBuffer_right → '\r' ∉ s.streamRight →
        out.state.usesCrlf = s.usesCrlf) ∧
    Option.map (fun o => o.state.usesCrlf)
      (readNextChunkPair_interleaved 16 4 32 crlfState0) = some true := by
  refine ⟨?_, skipToEol_snd_eq, ?_, by decide⟩
  · intro chunkCap tmp fuel s out h hc
    unfold readNextChunkPair_interleaved at h
    by_cases he : s.eof = true
    · simp only [he, if_true] at h
      cases h
      exact hc
    · have he' : s.eof = false := Bool.not_eq_true _ ▸ he
      simp only [he', Bool.false_eq_true, if_false] at h
      rcases hL : readSide chunkCap tmp fuel s.swapBuffer_left s.streamLeft
          s.usesCrlf with ⟨resL, fL, sL2⟩
      rw [hL] at h
      cases resL with
      | stuck => simp at h
      | abort =>
        cases h
        exact hc
      | ok ce cb sz e c =>
        rw [hc] at hL
        have hcL : c = true := readSide_crlf_true chunkCap tmp fuel _ _ hL
        subst hcL
        simp only [] at h
        rcases hR : readSide chunkCap tmp fuel s.swapBuffer_right s.streamRight
            true with ⟨resR, fR, sR2⟩
        rw [hR] at h
        cases resR with
        | stuck => simp at h
        | abort =>
          cases h
          rfl
        | ok ce2 cb2 sz2 e2 c2 =>
          have hc2 : c2 = true := readSide_crlf_true chunkCap tmp fuel _ _ hR
          subst hc2
          simp only [] at h
          split at h
          · cases h
            rfl
          · cases h
            rfl
  · intro chunkCap tmp fuel s out h hswL hstL hswR hstR
    unfold readNextChunkPair_interleaved at h
    by_cases he : s.eof = true
    · simp only [he, if_true] at h
      cases h
      rfl
    · have he' : s.eof = false := Bool.not_eq_true _ ▸ he
      simp only [he', Bool.false_eq_true, if_false] at h
      rcases hL : readSide chunkCap tmp fuel s.swapBuffer_left s.streamLeft
          s.usesCrlf with ⟨resL, fL, sL2⟩
      rw [hL] at h
      cases resL with
      | stuck => simp at h
      | abort =>
        cases h
        rfl
      | ok ce cb sz e c =>
        have hcL : c = s.usesCrlf :=
          readSide_crlf_noCR chunkCap tmp fuel _ _ _ hswL hstL hL
        subst hcL
        simp only [] at h
        rcases hR : readSide chunkCap tmp fuel s.swapBuffer_right s.streamRight
            s.usesCrlf with ⟨resR, fR, sR2⟩
        rw [hR] at h
        cases resR with
        | stuck => simp at h
        | abort =>
          cases h
          rfl
        | ok ce2 cb2 sz2 e2 c2 =>
          have hc2 : c2 = s.usesCrlf :=
            readSide_crlf_noCR chunkCap tmp fuel _ _ _ hswR hstR hR
          subst hc2
          simp only [] at h
          split at h
          · cases h
            rfl
          · cases h
            rfl

/-- Witness for C7: the latch-preservation part applied at a concrete
latched state. -/
theorem claim_C7_witness :
    (StepOut.mk none ⟨[], [], true, true, [], []⟩ 2).state.usesCrlf = true :=
  claim_C7.1 16 4 32 ⟨[], [], true, true, [], []⟩ _ (by decide) rfl

/-! ## Newline-count and re-sync walk lemmas -/

/-- Step equation for `nlCount`. -/
theorem nlCount_succ (data : Nat → Char) (n : Nat) :
    nlCount data (n + 1) = nlCount data n + (if data n = '\n' then 1 else 0) :=
  rfl

/-- A prefix of `n` bytes holds at most `n` newlines. -/
theorem nlCount_le (data : Nat → Char) (n : Nat) : nlCount data n ≤ n := by
  induction n with
  | zero => exact Nat.le_refl 0
  | succ k ih =>
    rw [nlCount_succ]
    split <;> omega

/-- Correctness of the backward left walk: started at `e` with a surplus
`d ≥ 0`, provided the first `e + 1` bytes hold at least `d + 1` newlines,
the walk stops one past a newline and exactly `d` newlines have been
moved out of the prefix. -/
theorem resyncWalkLeft_spec (data : Nat → Char) :
    ∀ (fuel : Nat) (d e : Int), 0 ≤ e → 0 ≤ d →
      d + 1 ≤ (nlCount data (e.toNat + 1) : Int) →
      e.toNat + 1 ≤ fuel →
      1 ≤ resyncWalkLeft data fuel d e ∧
      resyncWalkLeft data fuel d e ≤ e + 1 ∧
      data ((resyncWalkLeft data fuel d e).toNat - 1) = '\n' ∧
      ((nlCount data (resyncWalkLeft data fuel d e).toNat : Int) =
        (nlCount data (e.toNat + 1) : Int) - d) := by
  intro fuel
  induction fuel with
  | zero =>
    intro d e he hd hcnt hfuel
    omega
  | succ n ih =>
    intro d e he hd hcnt hfuel
    have step : resyncWalkLeft data (n + 1) d e =
        if 0 ≤ e then
          if data e.toNat = '\n' then
            if d - 1 = -1 then e + 1
            else resyncWalkLeft data n (d - 1) (e - 1)
          else resyncWalkLeft data n d (e - 1)
        else e := rfl
    rw [step, if_pos he]
    by_cases hnl : data e.toNat = '\n'
    · rw [if_pos hnl]
      by_cases hd1 : d - 1 = -1
      · rw [if_pos hd1]
        have hd0 : d = 0 := by omega
        subst hd0
        have ht : (e + 1).toNat - 1 = e.toNat := by omega
        have ht2 : (e + 1).toNat = e.toNat + 1 := by omega
        refine ⟨by omega, by omega, ?_, ?_⟩
        · rw [ht]
          exact hnl
        · rw [ht2]
          omega
      · rw [if_neg hd1]
        have hd' : 1 ≤ d := by omega
        have he1 : 1 ≤ e := by
          by_contra hlt
          have he0 : e = 0 := by omega
          subst he0
          have h1 : nlCount data ((0 : Int).toNat + 1) ≤ 1 := nlCount_le data _
          omega
        have heq : (e - 1).toNat + 1 = e.toNat := by omega
        have hs : nlCount data (e.toNat + 1) = nlCount data e.toNat + 1 := by
          rw [nlCount_succ, if_pos hnl]
        have hrec := ih (d - 1) (e - 1) (by omega) (by omega)
          (by rw [heq]; omega) (by omega)
        obtain ⟨h1, h2, h3, h4⟩ := hrec
        rw [heq] at h4
        exact ⟨h1, by omega, h3, by omega⟩
    · rw [if_neg hnl]
      have he1 : 1 ≤ e := by
        by_contra hlt
        have he0 : e = 0 := by omega
        subst he0
        have hs : nlCount data ((0 : Int).toNat + 1) =
            nlCount data ((0 : Int).toNat) + 0 := by
          rw [nlCount_succ, if_neg hnl]
        have hz : nlCount data ((0 : Int).toNat) = 0 := rfl
        omega
      have heq : (e - 1).toNat + 1 = e.toNat := by omega
      have hs : nlCount data (e.toNat + 1) = nlCount data e.toNat + 0 := by
        rw [nlCount_succ, if_neg hnl]
      have hrec := ih d (e - 1) (by omega) hd (by rw [heq]; omega) (by omega)
      obtain ⟨h1, h2, h3, h4⟩ := hrec
      rw [heq] at h4
      exact ⟨h1, by omega, h3, by omega⟩

/-- The right walk is the left walk on the negated surplus. -/
theorem resyncWalkRight_eq (data : Nat → Char) :
    ∀ fuel d e, resyncWalkRight data fuel d e = resyncWalkLeft data fuel (-d) e := by
  intro fuel
  induction fuel with
  | zero => intro d e; rfl
  | succ n ih =>
    intro d e
    have stepR : resyncWalkRight data (n + 1) d e =
        if 0 ≤ e then
          if data e.toNat = '\n' then
            if d + 1 = 1 then e + 1
            else resyncWalkRight data n (d + 1) (e - 1)
          else resyncWalkRight data n d (e - 1)
        else e := rfl
    have stepL : resyncWalkLeft data (n + 1) (-d) e =
        if 0 ≤ e then
          if data e.toNat = '\n' then
            if -d - 1 = -1 then e + 1
            else resyncWalkLeft data n (-d - 1) (e - 1)
          else resyncWalkLeft data n (-d) (e - 1)
        else e := rfl
    rw [stepR, stepL]
    by_cases h1 : (0 : Int) ≤ e
    · rw [if_pos h1, if_pos h1]
      by_cases h2 : data e.toNat = '\n'
      · rw [if_pos h2, if_pos h2]
        by_cases h3 : d + 1 = 1
        · rw [if_pos h3, if_pos (by omega : -d - 1 = -1)]
        · rw [if_neg h3, if_neg (by omega : ¬(-d - 1 = -1)), ih]
          congr 1
          omega
      · rw [if_neg h2, if_neg h2, ih]
    · rw [if_neg h1, if_neg h1]

/-- Master lemma for the re-sync block: when both candidate cuts sit right
after a newline (byte before the cut is `\n`, byte at the cut is not), and
each side has at least one newline before its cut, the re-synchronized cuts
still sit right after a newline, have not moved past the originals, and
carry equal newline counts. -/
theorem resyncBlock_spec (dataL dataR : Nat → Char) (ceL ceR : Nat)
    (hL1 : 1 ≤ ceL) (hR1 : 1 ≤ ceR)
    (hLat : dataL ceL ≠ '\n') (hRat : dataR ceR ≠ '\n')
    (hLterm : dataL (ceL - 1) = '\n') (hRterm : dataR (ceR - 1) = '\n')
    (hLnl : 1 ≤ nlCount dataL ceL) (hRnl : 1 ≤ nlCount dataR ceR) :
    1 ≤ (resyncBlock dataL dataR (ceL : Int) (ceR : Int)).1 ∧
    (resyncBlock dataL dataR (ceL : Int) (ceR : Int)).1 ≤ (ceL : Int) ∧
    1 ≤ (resyncBlock dataL dataR (ceL : Int) (ceR : Int)).2 ∧
    (resyncBlock dataL dataR (ceL : Int) (ceR : Int)).2 ≤ (ceR : Int) ∧
    dataL ((resyncBlock dataL dataR (ceL : Int) (ceR : Int)).1.toNat - 1) = '\n' ∧
    dataR ((resyncBlock dataL dataR (ceL : Int) (ceR : Int)).2.toNat - 1) = '\n' ∧
    nlCount dataL (resyncBlock dataL dataR (ceL : Int) (ceR : Int)).1.toNat =
      nlCount dataR (resyncBlock dataL dataR (ceL : Int) (ceR : Int)).2.toNat := by
  have hblock : resyncBlock dataL dataR (ceL : Int) (ceR : Int) =
      if 0 < ((nlCount dataL ceL : Int) - (nlCount dataR ceR : Int)) then
        (resyncWalkLeft dataL (ceL + 1)
          ((nlCount dataL ceL : Int) - (nlCount dataR ceR : Int)) (ceL : Int),
         (ceR : Int))
      else if ((nlCount dataL ceL : Int) - (nlCount dataR ceR : Int)) < 0 then
        ((ceL : Int),
         resyncWalkRight dataR (ceR + 1)
           ((nlCount dataL ceL : Int) - (nlCount dataR ceR : Int)) (ceR : Int))
      else ((ceL : Int), (ceR : Int)) := rfl
  have hsL : nlCount dataL (ceL + 1) = nlCount dataL ceL + 0 := by
    rw [nlCount_succ, if_neg hLat]
  have hsR : nlCount dataR (ceR + 1) = nlCount dataR ceR + 0 := by
    rw [nlCount_succ, if_neg hRat]
  have hidL : nlCount dataL (((ceL : Int)).toNat + 1) = nlCount dataL (ceL + 1) :=
    rfl
  have hidL2 : nlCount dataL ((ceL : Int)).toNat = nlCount dataL ceL := rfl
  have hidR : nlCount dataR (((ceR : Int)).toNat + 1) = nlCount dataR (ceR + 1) :=
    rfl
  have hidR2 : nlCount dataR ((ceR : Int)).toNat = nlCount dataR ceR := rfl
  by_cases hpos : 0 < ((nlCount dataL ceL : Int) - (nlCount dataR ceR : Int))
  · rw [hblock, if_pos hpos]
    dsimp only
    have hw := resyncWalkLeft_spec dataL (ceL + 1)
      ((nlCount dataL ceL : Int) - (nlCount dataR ceR : Int)) (ceL : Int)
      (by omega) (by omega) (by omega) (by omega)
    obtain ⟨w1, w2, w3, w4⟩ := hw
    have hwle : resyncWalkLeft dataL (ceL + 1)
        ((nlCount dataL ceL : Int) - (nlCount dataR ceR : Int)) (ceL : Int) ≤
        (ceL : Int) := by
      by_contra hgt
      have hEq : resyncWalkLeft dataL (ceL + 1)
          ((nlCount dataL ceL : Int) - (nlCount dataR ceR : Int)) (ceL : Int) =
          (ceL : Int) + 1 := by omega
      rw [hEq] at w3
      have ht : ((ceL : Int) + 1).toNat - 1 = ceL := by omega
      rw [ht] at w3
      exact hLat w3
    exact ⟨w1, hwle, by omega, by omega, w3, hRterm, by omega⟩
  · by_cases hneg : ((nlCount dataL ceL : Int) - (nlCount dataR ceR : Int)) < 0
    · rw [hblock, if_neg hpos, if_pos hneg]
      dsimp only
      rw [resyncWalkRight_eq]
      have hw := resyncWalkLeft_spec dataR (ceR + 1)
        (-((nlCount dataL ceL : Int) - (nlCount dataR ceR : Int))) (ceR : Int)
        (by omega) (by omega) (by omega) (by omega)
      obtain ⟨w1, w2, w3, w4⟩ := hw
      have hwle : resyncWalkLeft dataR (ceR + 1)
          (-((nlCount dataL ceL : Int) - (nlCount dataR ceR : Int))) (ceR : Int) ≤
          (ceR : Int) := by
        by_contra hgt
        have hEq : resyncWalkLeft dataR (ceR + 1)
            (-((nlCount dataL ceL : Int) - (nlCount dataR ceR : Int))) (ceR : Int) =
            (ceR : Int) + 1 := by omega
        rw [hEq] at w3
        have ht : ((ceR : Int) + 1).toNat - 1 = ceR := by omega
        rw [ht] at w3
        exact hRat w3
      exact ⟨by omega, by omega, w1, hwle, hLterm, w3, by omega⟩
    · rw [hblock, if_neg hpos, if_neg hneg]
      dsimp only
      exact ⟨by omega, by omega, by omega, by omega, hLterm, hRterm, by omega⟩

/-! ## List bridging lemmas -/

/-- Newlines in a list prefix, counted through the memory view. -/
theorem count_take_nl (l : List Char) :
    ∀ m, m ≤ l.length → (l.take m).count '\n' = nlCount (dataAt l) m := by
  intro m
  induction m with
  | zero => intro _; rfl
  | succ k ih =>
    intro hm
    have hk : k < l.length := by omega
    rw [List.take_succ, List.count_append, ih (by omega), nlCount_succ,
      List.getElem?_eq_getElem hk]
    have hdat : dataAt l k = l[k] := List.getD_eq_getElem l junkByte hk
    rw [hdat]
    by_cases hx : l[k] = '\n'
    · rw [hx]
      simp
    · rw [if_neg hx]
      simp [List.count_singleton', hx]

/-- Reading a list back out of its memory view from offset `a`. -/
theorem rangeMap_getD (l : List Char) :
    ∀ a, (List.range (l.length - a)).map (fun i => dataAt l (a + i)) = l.drop a := by
  induction l with
  | nil =>
    intro a
    simp
  | cons x xs ih =>
    intro a
    cases a with
    | zero =>
      have hlen : (x :: xs).length - 0 = xs.length + 1 := by simp
      rw [hlen, List.range_succ_eq_map, List.map_cons, List.map_map,
        List.drop_zero]
      congr 1
      have hcong : List.map ((fun i => dataAt (x :: xs) (0 + i)) ∘ Nat.succ)
          (List.range xs.length) =
          List.map (fun i => dataAt xs (0 + i)) (List.range xs.length) := by
        apply List.map_congr_left
        intro i _
        show dataAt (x :: xs) (0 + Nat.succ i) = dataAt xs (0 + i)
        have h3 : 0 + Nat.succ i = (0 + i) + 1 := by omega
        rw [h3]
        rfl
      rw [hcong]
      have h2 := ih 0
      rw [List.drop_zero] at h2
      have h4 : xs.length - 0 = xs.length := rfl
      rw [h4] at h2
      exact h2
    | succ a' =>
      have hlen : (x :: xs).length - (a' + 1) = xs.length - a' := by simp
      rw [hlen, List.drop_succ_cons, ← ih a']
      apply List.map_congr_left
      intro i _
      show dataAt (x :: xs) (a' + 1 + i) = dataAt xs (a' + i)
      have : a' + 1 + i = (a' + i) + 1 := by omega
      rw [this]
      rfl

/-- The swap-buffer copy `std::copy(data + a, data + len, …)` is a list
drop when `b` is the buffer length. -/
theorem sliceBytes_eq_drop (l : List Char) (a b : Int) (h0 : 0 ≤ a) (hab : a ≤ b)
    (hb : b.toNat = l.length) :
    sliceBytes l a b = l.drop a.toNat := by
  unfold sliceBytes
  have hlen : (b - a).toNat = l.length - a.toNat := by omega
  rw [hlen]
  exact rangeMap_getD l a.toNat

/-- Splitting a buffer at a cut that sits right after a newline. -/
theorem split_at_nl (l : List Char) (m : Nat) (h1 : 1 ≤ m) (h2 : m ≤ l.length)
    (hnl : dataAt l (m - 1) = '\n') :
    l = l.take (m - 1) ++ '\n' :: l.drop m := by
  have hlt : m - 1 < l.length := by omega
  have hx : l[m - 1] = '\n' := by
    have hg := List.getD_eq_getElem l junkByte hlt
    unfold dataAt at hnl
    rw [hg] at hnl
    exact hnl
  have hdrop : l.drop (m - 1) = l[m - 1] :: l.drop m := by
    have h := List.drop_eq_getElem_cons hlt
    have hm : m - 1 + 1 = m := by omega
    rw [hm] at h
    exact h
  calc l = l.take (m - 1) ++ l.drop (m - 1) := (List.take_append_drop _ l).symm
    _ = l.take (m - 1) ++ '\n' :: l.drop m := by rw [hdrop, hx]

/-! ## Evaluation of a full-refill round -/

/-- A side whose carry-over is smaller than the capacity and whose stream
still holds enough bytes takes the full-refill branch: the probe result
becomes the candidate cut. -/
theorem readSide_full (chunkCap tmp fuel : Nat) (swap stream : List Char)
    (crlf : Bool) (ce : Nat) (cOut : Bool)
    (hlen : swap.length < chunkCap)
    (hstr : chunkCap - swap.length ≤ stream.length)
    (hp : GetNextRecordPos fuel
        (dataAt (swap ++ stream.take (chunkCap - swap.length)))
        (chunkCap - tmp) chunkCap crlf = some (ce, cOut)) :
    readSide chunkCap tmp fuel swap stream crlf =
      (SideResult.ok (ce : Int) (chunkCap : Int) (swap.length : Int) false cOut,
       swap ++ stream.take (chunkCap - swap.length),
       stream.drop (chunkCap - swap.length)) := by
  rw [readSide_def]
  have hlen2 : (stream.take (chunkCap - swap.length)).length =
      chunkCap - swap.length := by
    rw [List.length_take]
    omega
  rw [hlen2]
  rw [if_pos (by omega : (0 : Int) < ((chunkCap - swap.length : Nat) : Int))]
  rw [if_pos (by push_cast [Nat.cast_sub (Nat.le_of_lt hlen)]; ring :
    ((chunkCap - swap.length : Nat) : Int) = (chunkCap : Int) - swap.length)]
  rw [hp]

/-- Evaluation of one pair-producing call in which both sides do a full
refill with `\n` terminators throughout (`usesCrlf` stays false): the
emitted sizes and the new swap buffers come from the re-synchronized
cut points. -/
theorem step_two_full (chunkCap tmp fuel : Nat) (s : SplitterState)
    (ceL ceR : Nat)
    (hEof : s.eof = false) (hCrlf : s.usesCrlf = false)
    (hLlen : s.swapBuffer_left.length < chunkCap)
    (hLstr : chunkCap - s.swapBuffer_left.length ≤ s.streamLeft.length)
    (hRlen : s.swapBuffer_right.length < chunkCap)
    (hRstr : chunkCap - s.swapBuffer_right.length ≤ s.streamRight.length)
    (hPL : GetNextRecordPos fuel
        (dataAt (s.swapBuffer_left ++
          s.streamLeft.take (chunkCap - s.swapBuffer_left.length)))
        (chunkCap - tmp) chunkCap false = some (ceL, false))
    (hPR : GetNextRecordPos fuel
        (dataAt (s.swapBuffer_right ++
          s.streamRight.take (chunkCap - s.swapBuffer_right.length)))
        (chunkCap - tmp) chunkCap false = some (ceR, false)) :
    readNextChunkPair_interleaved chunkCap tmp fuel s =
      some ⟨some
        ((s.swapBuffer_left ++
            s.streamLeft.take (chunkCap - s.swapBuffer_left.length)).take
          ((resyncBlock
            (dataAt (s.swapBuffer_left ++
              s.streamLeft.take (chunkCap - s.swapBuffer_left.length)))
            (dataAt (s.swapBuffer_right ++
              s.streamRight.take (chunkCap - s.swapBuffer_right.length)))
            (ceL : Int) (ceR : Int)).1 - 1).toNat,
         (s.swapBuffer_right ++
            s.streamRight.take (chunkCap - s.swapBuffer_right.length)).take
          ((resyncBlock
            (dataAt (s.swapBuffer_left ++
              s.streamLeft.take (chunkCap - s.swapBuffer_left.length)))
            (dataAt (s.swapBuffer_right ++
              s.streamRight.take (chunkCap - s.swapBuffer_right.length)))
            (ceL : Int) (ceR : Int)).2 - 1).toNat),
        ⟨sliceBytes
            (s.swapBuffer_left ++
              s.streamLeft.take (chunkCap - s.swapBuffer_left.length))
            (resyncBlock
              (dataAt (s.swapBuffer_left ++
                s.streamLeft.take (chunkCap - s.swapBuffer_left.length)))
              (dataAt (s.swapBuffer_right ++
                s.streamRight.take (chunkCap - s.swapBuffer_right.length)))
              (ceL : Int) (ceR : Int)).1 (chunkCap : Int),
         sliceBytes
            (s.swapBuffer_right ++
              s.streamRight.take (chunkCap - s.swapBuffer_right.length))
            (resyncBlock
              (dataAt (s.swapBuffer_left ++
                s.streamLeft.take (chunkCap - s.swapBuffer_left.length)))
              (dataAt (s.swapBuffer_right ++
                s.streamRight.take (chunkCap - s.swapBuffer_right.length)))
              (ceL : Int) (ceR : Int)).2 (chunkCap : Int),
         false, false,
         s.streamLeft.drop (chunkCap - s.swapBuffer_left.length),
         s.streamRight.drop (chunkCap - s.swapBuffer_right.length)⟩, 0⟩ := by
  have hL := readSide_full chunkCap tmp fuel s.swapBuffer_left s.streamLeft
    false ceL false hLlen hLstr hPL
  have hR := readSide_full chunkCap tmp fuel s.swapBuffer_right s.streamRight
    false ceR false hRlen hRstr hPR
  unfold readNextChunkPair_interleaved
  rw [hEof]
  simp only [Bool.false_eq_true, if_false]
  rw [hCrlf, hL]
  simp only []
  rw [hR]
  simp only [Bool.and_self, Bool.false_eq_true, if_false, sub_zero]

/-! ## Claim C1: record balance after re-synchronization -/

/-- Claim C1: in a pair-producing, non-eof round where both sides fully
refill, the probes return cuts that sit right after a newline (as they do
on well-formed four-line records: the returned `@` follows the previous
record's terminator), and each side has a newline before its cut, the pair
emitted by `readNextChunkPair_interleaved` carries equal newline counts in
the first `size` bytes of the two chunks — and hence, each record being
exactly four lines, equal record counts. -/
theorem claim_C1 (chunkCap tmp fuel : Nat) (s : SplitterState) (ceL ceR : Nat)
    (fL fR : List Char)
    (hFL : fL = s.swapBuffer_left ++
      s.streamLeft.take (chunkCap - s.swapBuffer_left.length))
    (hFR : fR = s.swapBuffer_right ++
      s.streamRight.take (chunkCap - s.swapBuffer_right.length))
    (hEof : s.eof = false) (hCrlf : s.usesCrlf = false)
    (hLlen : s.swapBuffer_left.length < chunkCap)
    (hLstr : chunkCap - s.swapBuffer_left.length ≤ s.streamLeft.length)
    (hRlen : s.swapBuffer_right.length < chunkCap)
    (hRstr : chunkCap - s.swapBuffer_right.length ≤ s.streamRight.length)
    (hPL : GetNextRecordPos fuel (dataAt fL) (chunkCap - tmp) chunkCap false =
      some (ceL, false))
    (hPR : GetNextRecordPos fuel (dataAt fR) (chunkCap - tmp) chunkCap false =
      some (ceR, false))
    (hL1 : 1 ≤ ceL) (hLcap : ceL ≤ chunkCap)
    (hR1 : 1 ≤ ceR) (hRcap : ceR ≤ chunkCap)
    (hLat : dataAt fL ceL ≠ '\n') (hRat : dataAt fR ceR ≠ '\n')
    (hLterm : dataAt fL (ceL - 1) = '\n') (hRterm : dataAt fR (ceR - 1) = '\n')
    (hLnl : 1 ≤ nlCount (dataAt fL) ceL) (hRnl : 1 ≤ nlCount (dataAt fR) ceR) :
    ∃ eL eR s2,
      readNextChunkPair_interleaved chunkCap tmp fuel s =
        some ⟨some (eL, eR), s2, 0⟩ ∧
      eL.count '\n' = eR.count '\n' ∧
      eL.count '\n' / 4 = eR.count '\n' / 4 := by
  subst hFL
  subst hFR
  have hstep := step_two_full chunkCap tmp fuel s ceL ceR hEof hCrlf hLlen
    hLstr hRlen hRstr hPL hPR
  set fL := s.swapBuffer_left ++
    s.streamLeft.take (chunkCap - s.swapBuffer_left.length) with hfL
  set fR := s.swapBuffer_right ++
    s.streamRight.take (chunkCap - s.swapBuffer_right.length) with hfR
  set RB := resyncBlock (dataAt fL) (dataAt fR) (ceL : Int) (ceR : Int) with hRBdef
  obtain ⟨m1, m2, m3, m4, m5, m6, m7⟩ :=
    resyncBlock_spec (dataAt fL) (dataAt fR) ceL ceR hL1 hR1 hLat hRat
      hLterm hRterm hLnl hRnl
  rw [← hRBdef] at m1 m2 m3 m4 m5 m6 m7
  have hfLlen : fL.length = chunkCap := by
    rw [hfL, List.length_append, List.length_take]
    omega
  have hfRlen : fR.length = chunkCap := by
    rw [hfR, List.length_append, List.length_take]
    omega
  have hmL : (RB.1 - 1).toNat = RB.1.toNat - 1 := by omega
  have hmR : (RB.2 - 1).toNat = RB.2.toNat - 1 := by omega
  have hcL : (fL.take ((RB.1 - 1).toNat)).count '\n' =
      nlCount (dataAt fL) (RB.1.toNat - 1) := by
    rw [hmL]
    exact count_take_nl fL _ (by omega)
  have hcR : (fR.take ((RB.2 - 1).toNat)).count '\n' =
      nlCount (dataAt fR) (RB.2.toNat - 1) := by
    rw [hmR]
    exact count_take_nl fR _ (by omega)
  have hL' : nlCount (dataAt fL) ((RB.1.toNat - 1) + 1) =
      nlCount (dataAt fL) (RB.1.toNat - 1) + 1 := by
    rw [nlCount_succ, if_pos m5]
  have hR' : nlCount (dataAt fR) ((RB.2.toNat - 1) + 1) =
      nlCount (dataAt fR) (RB.2.toNat - 1) + 1 := by
    rw [nlCount_succ, if_pos m6]
  have hstepL : (RB.1.toNat - 1) + 1 = RB.1.toNat := by omega
  have hstepR : (RB.2.toNat - 1) + 1 = RB.2.toNat := by omega
  rw [hstepL] at hL'
  rw [hstepR] at hR'
  have hcount : (fL.take ((RB.1 - 1).toNat)).count '\n' =
      (fR.take ((RB.2 - 1).toNat)).count '\n' := by
    rw [hcL, hcR]
    omega
  exact ⟨_, _, _, hstep, hcount, by rw [hcount]⟩

/-- Witness for C1: the first round of the concrete session on `exFile`. -/
theorem claim_C1_witness :
    ∃ eL eR s2,
      readNextChunkPair_interleaved 24 3 32 exState0 =
        some ⟨some (eL, eR), s2, 0⟩ ∧
      eL.count '\n' = eR.count '\n' ∧
      eL.count '\n' / 4 = eR.count '\n' / 4 :=
  claim_C1 24 3 32 exState0 22 22 _ _ rfl rfl (by decide) (by decide)
    (by decide) (by decide) (by decide) (by decide) (by decide) (by decide)
    (by decide) (by decide) (by decide) (by decide) (by decide) (by decide)
    (by decide) (by decide) (by decide) (by decide)

/-! ## Claim C2 amended: per-pair byte conservation with the cut newline -/

/-- Claim C2 (amended): in a pair-producing, non-eof round where both sides
fully refill, the bytes of the round are conserved up to exactly one
newline at each cut: the carry-over plus the bytes read equal the emitted
chunk, one `\n`, and the new carry-over, on each side, and the streams
advance by exactly the bytes read.  Plain concatenation of the chunks
therefore loses exactly the one terminator byte per cut exhibited by the
counterexample, and no other byte is dropped or duplicated. -/
theorem claim_C2 (chunkCap tmp fuel : Nat) (s : SplitterState) (ceL ceR : Nat)
    (fL fR : List Char)
    (hFL : fL = s.swapBuffer_left ++
      s.streamLeft.take (chunkCap - s.swapBuffer_left.length))
    (hFR : fR = s.swapBuffer_right ++
      s.streamRight.take (chunkCap - s.swapBuffer_right.length))
    (hEof : s.eof = false) (hCrlf : s.usesCrlf = false)
    (hLlen : s.swapBuffer_left.length < chunkCap)
    (hLstr : chunkCap - s.swapBuffer_left.length ≤ s.streamLeft.length)
    (hRlen : s.swapBuffer_right.length < chunkCap)
    (hRstr : chunkCap - s.swapBuffer_right.length ≤ s.streamRight.length)
    (hPL : GetNextRecordPos fuel (dataAt fL) (chunkCap - tmp) chunkCap false =
      some (ceL, false))
    (hPR : GetNextRecordPos fuel (dataAt fR) (chunkCap - tmp) chunkCap false =
      some (ceR, false))
    (hL1 : 1 ≤ ceL) (hLcap : ceL ≤ chunkCap)
    (hR1 : 1 ≤ ceR) (hRcap : ceR ≤ chunkCap)
    (hLat : dataAt fL ceL ≠ '\n') (hRat : dataAt fR ceR ≠ '\n')
    (hLterm : dataAt fL (ceL - 1) = '\n') (hRterm : dataAt fR (ceR - 1) = '\n')
    (hLnl : 1 ≤ nlCount (dataAt fL) ceL) (hRnl : 1 ≤ nlCount (dataAt fR) ceR) :
    ∃ eL eR s2,
      readNextChunkPair_interleaved chunkCap tmp fuel s =
        some ⟨some (eL, eR), s2, 0⟩ ∧
      fL = eL ++ '\n' :: s2.swapBuffer_left ∧
      fR = eR ++ '\n' :: s2.swapBuffer_right ∧
      s2.streamLeft = s.streamLeft.drop (chunkCap - s.swapBuffer_left.length) ∧
      s2.streamRight =
        s.streamRight.drop (chunkCap - s.swapBuffer_right.length) := by
  subst hFL
  subst hFR
  have hstep := step_two_full chunkCap tmp fuel s ceL ceR hEof hCrlf hLlen
    hLstr hRlen hRstr hPL hPR
  set fL := s.swapBuffer_left ++
    s.streamLeft.take (chunkCap - s.swapBuffer_left.length) with hfL
  set fR := s.swapBuffer_right ++
    s.streamRight.take (chunkCap - s.swapBuffer_right.length) with hfR
  set RB := resyncBlock (dataAt fL) (dataAt fR) (ceL : Int) (ceR : Int)
    with hRBdef
  obtain ⟨m1, m2, m3, m4, m5, m6, m7⟩ :=
    resyncBlock_spec (dataAt fL) (dataAt fR) ceL ceR hL1 hR1 hLat hRat
      hLterm hRterm hLnl hRnl
  rw [← hRBdef] at m1 m2 m3 m4 m5 m6 m7
  have hfLlen : fL.length = chunkCap := by
    rw [hfL, List.length_append, List.length_take]
    omega
  have hfRlen : fR.length = chunkCap := by
    rw [hfR, List.length_append, List.length_take]
    omega
  have hsliceL : sliceBytes fL RB.1 (chunkCap : Int) = fL.drop RB.1.toNat := by
    apply sliceBytes_eq_drop fL RB.1 (chunkCap : Int) (by omega) (by omega)
    omega
  have hsliceR : sliceBytes fR RB.2 (chunkCap : Int) = fR.drop RB.2.toNat := by
    apply sliceBytes_eq_drop fR RB.2 (chunkCap : Int) (by omega) (by omega)
    omega
  rw [hsliceL, hsliceR] at hstep
  have hmL : (RB.1 - 1).toNat = RB.1.toNat - 1 := by omega
  have hmR : (RB.2 - 1).toNat = RB.2.toNat - 1 := by omega
  have hsplitL : fL = fL.take ((RB.1 - 1).toNat) ++ '\n' :: fL.drop RB.1.toNat := by
    rw [hmL]
    exact split_at_nl fL RB.1.toNat (by omega) (by omega) m5
  have hsplitR : fR = fR.take ((RB.2 - 1).toNat) ++ '\n' :: fR.drop RB.2.toNat := by
    rw [hmR]
    exact split_at_nl fR RB.2.toNat (by omega) (by omega) m6
  exact ⟨_, _, _, hstep, hsplitL, hsplitR, rfl, rfl⟩

/-- Witness for the amended C2 at the first round of the `exFile`
session. -/
theorem claim_C2_witness :
    ∃ eL eR s2,
      readNextChunkPair_interleaved 24 3 32 exState0 =
        some ⟨some (eL, eR), s2, 0⟩ ∧
      (exState0.swapBuffer_left ++
          exState0.streamLeft.take (24 - exState0.swapBuffer_left.length)) =
        eL ++ '\n' :: s2.swapBuffer_left ∧
      (exState0.swapBuffer_right ++
          exState0.streamRight.take (24 - exState0.swapBuffer_right.length)) =
        eR ++ '\n' :: s2.swapBuffer_right ∧
      s2.streamLeft =
        exState0.streamLeft.drop (24 - exState0.swapBuffer_left.length) ∧
      s2.streamRight =
        exState0.streamRight.drop (24 - exState0.swapBuffer_right.length) :=
  claim_C2 24 3 32 exState0 22 22 _ _ rfl rfl (by decide) (by decide)
    (by decide) (by decide) (by decide) (by decide) (by decide) (by decide)
    (by decide) (by decide) (by decide) (by decide) (by decide) (by decide)
    (by decide) (by decide) (by decide) (by decide)

/-! ## Line-layout lemmas for the record probe (claim C3) -/

/-- A byte inside a line is neither `\n` nor `\r`. -/
theorem lineAt_byte_ne (data : Nat → Char) (a : Nat) (L : List Char)
    (hL : lineAt data a L) (i : Nat) (hi : i < L.length) :
    data (a + i) ≠ '\n' ∧ data (a + i) ≠ '\r' := by
  have hmem : L.getD i junkByte ∈ L := by
    rw [List.getD_eq_getElem L _ hi]
    exact List.getElem_mem hi
  rw [hL.1 i hi]
  exact hL.2.1 _ hmem

/-- The `SkipToEol` scan started anywhere inside a line (terminator
included) stops exactly on the line's terminator. -/
theorem skipToEolLoop_line (data : Nat → Char) (size_ a : Nat) (L : List Char)
    (hL : lineAt data a L) (hsz : a + L.length ≤ size_) :
    ∀ f pos, a ≤ pos → pos ≤ a + L.length → a + L.length ≤ pos + f →
      skipToEolLoop data size_ f pos = a + L.length := by
  intro f
  induction f with
  | zero =>
    intro pos h1 h2 h3
    have hp : pos = a + L.length := by omega
    rw [hp]
    rfl
  | succ n ih =>
    intro pos h1 h2 h3
    by_cases hend : pos = a + L.length
    · subst hend
      have hstep : skipToEolLoop data size_ (n + 1) (a + L.length) =
          if data (a + L.length) ≠ '\n' ∧ data (a + L.length) ≠ '\r' ∧
              a + L.length < size_ then
            skipToEolLoop data size_ n (a + L.length + 1)
          else a + L.length := rfl
      rw [hstep, if_neg]
      intro hc
      exact hc.1 hL.2.2
    · have hi : pos - a < L.length := by omega
      have hbyte := lineAt_byte_ne data a L hL (pos - a) hi
      have ha : a + (pos - a) = pos := by omega
      rw [ha] at hbyte
      have hstep : skipToEolLoop data size_ (n + 1) pos =
          if data pos ≠ '\n' ∧ data pos ≠ '\r' ∧ pos < size_ then
            skipToEolLoop data size_ n (pos + 1)
          else pos := rfl
      rw [hstep, if_pos ⟨hbyte.1, hbyte.2, by omega⟩]
      exact ih (pos + 1) (by omega) (by omega) (by omega)

/-- `SkipToEol` from anywhere inside a `\n`-terminated line lands on the
terminator and leaves the crlf flag alone. -/
theorem SkipToEol_line (data : Nat → Char) (size_ a : Nat) (L : List Char)
    (hL : lineAt data a L) (hsz : a + L.length ≤ size_) (c : Bool) (pos : Nat)
    (h1 : a ≤ pos) (h2 : pos ≤ a + L.length) :
    SkipToEol data pos size_ c = (a + L.length, c) := by
  have hloop : skipToEolLoop data size_ (size_ + 1 - pos) pos = a + L.length :=
    skipToEolLoop_line data size_ a L hL hsz _ pos h1 h2 (by omega)
  rw [SkipToEol_def, hloop, if_neg]
  intro hc
  have hcr := hc.1
  rw [hL.2.2] at hcr
  exact absurd hcr (by decide)

/-- The record-start scan stops immediately on an `@` byte. -/
theorem findRecordStartLoop_at (data : Nat → Char) (size_ fuel pos_ : Nat)
    (c : Bool) (h : data pos_ = '@') :
    findRecordStartLoop data size_ fuel pos_ c = some (pos_, c) := by
  cases fuel <;> simp [findRecordStartLoop, h]

/-! ## Claim C3: the three-line probe finds the next record start -/

/-- Claim C3: inside a buffer laid out as well-formed four-line records
(`\n` terminators; sequence lines do not start with `@`, strand lines do
not start with `@`, name lines do), `GetNextRecordPos` started anywhere
inside record `r1` returns exactly the offset of the `@` that begins the
next record `r2` — also when `r1`'s quality line begins with `@`: the
three-line probe skips that quality line instead of taking it for a name
line. -/
theorem claim_C3 (data : Nat → Char) (size_ fuel a pos : Nat)
    (r1 r2 : FqRecord)
    (hr1 : recordAt data a r1) (hr2 : recordAt data (a + recLen r1) r2)
    (hpos1 : a ≤ pos) (hpos2 : pos < a + recLen r1)
    (hseq1 : data (a + r1.name.length + 1) ≠ '@')
    (hstr1 : data (a + r1.name.length + 1 + r1.seq.length + 1) ≠ '@')
    (hname2 : data (a + recLen r1) = '@')
    (hseq2 : data (a + recLen r1 + r2.name.length + 1) ≠ '@')
    (hsize : a + recLen r1 + r2.name.length + 1 + r2.seq.length ≤ size_)
    (hfuel : 3 ≤ fuel) :
    GetNextRecordPos fuel data pos size_ false =
      some (a + recLen r1, false) := by
  obtain ⟨hn1, hs1, ht1, hq1⟩ := hr1
  obtain ⟨hn2, hs2, hrest2⟩ := hr2
  have hreceq : recLen r1 = r1.name.length + r1.seq.length +
      r1.strand.length + r1.quality.length + 4 := rfl
  have hb : a + r1.name.length + 1 + r1.seq.length + 1 + r1.strand.length + 1 +
      r1.quality.length + 1 = a + recLen r1 := by
    rw [hreceq]
    omega
  have hszn1 : a + r1.name.length ≤ size_ := by omega
  have hszs1 : a + r1.name.length + 1 + r1.seq.length ≤ size_ := by omega
  have hszt1 : a + r1.name.length + 1 + r1.seq.length + 1 + r1.strand.length ≤
      size_ := by omega
  have hszq1 : a + r1.name.length + 1 + r1.seq.length + 1 + r1.strand.length +
      1 + r1.quality.length ≤ size_ := by omega
  have hszn2 : a + recLen r1 + r2.name.length ≤ size_ := by omega
  obtain ⟨f, rfl⟩ : ∃ f, fuel = f + 1 + 1 + 1 := ⟨fuel - 3, by omega⟩
  rw [GetNextRecordPos_def]
  have hfinB :
      (if data ((SkipToEol data (a + recLen r1) size_ false).1 + 1) = '@' then
        some ((SkipToEol data (a + recLen r1) size_ false).1 + 1,
          (SkipToEol data (a + recLen r1) size_ false).2)
      else
        some (a + recLen r1,
          (SkipToEol data ((SkipToEol data (a + recLen r1) size_ false).1 + 1)
            size_ (SkipToEol data (a + recLen r1) size_ false).2).2)) =
        some (a + recLen r1, false) := by
    rw [SkipToEol_line data size_ (a + recLen r1) r2.name hn2 hszn2 false _
      le_rfl (Nat.le_add_right _ _)]
    dsimp only
    rw [if_neg hseq2]
    rw [SkipToEol_line data size_ (a + recLen r1 + r2.name.length + 1) r2.seq
      hs2 hsize false _ le_rfl (Nat.le_add_right _ _)]
  by_cases hq : data (a + r1.name.length + 1 + r1.seq.length + 1 +
      r1.strand.length + 1) = '@'
  · have hscan4 : ∀ g, findRecordStartLoop data size_ g
        (a + r1.name.length + 1 + r1.seq.length + 1 + r1.strand.length + 1)
        false =
        some (a + r1.name.length + 1 + r1.seq.length + 1 + r1.strand.length + 1,
          false) :=
      fun g => findRecordStartLoop_at data size_ g _ false hq
    have hscan3 : ∀ g, findRecordStartLoop data size_ (g + 1)
        (a + r1.name.length + 1 + r1.seq.length + 1) false =
        some (a + r1.name.length + 1 + r1.seq.length + 1 + r1.strand.length + 1,
          false) := by
      intro g
      rw [findRecordStartLoop_succ, if_neg hstr1,
        SkipToEol_line data size_ (a + r1.name.length + 1 + r1.seq.length + 1)
          r1.strand ht1 hszt1 false _ le_rfl (Nat.le_add_right _ _)]
      dsimp only
      exact hscan4 g
    have hscan2 : ∀ g, findRecordStartLoop data size_ (g + 1 + 1)
        (a + r1.name.length + 1) false =
        some (a + r1.name.length + 1 + r1.seq.length + 1 + r1.strand.length + 1,
          false) := by
      intro g
      rw [findRecordStartLoop_succ, if_neg hseq1,
        SkipToEol_line data size_ (a + r1.name.length + 1) r1.seq hs1 hszs1
          false _ le_rfl (Nat.le_add_right _ _)]
      dsimp only
      exact hscan3 g
    have hfinA :
        (if data ((SkipToEol data (a + r1.name.length + 1 + r1.seq.length + 1 +
            r1.strand.length + 1) size_ false).1 + 1) = '@' then
          some ((SkipToEol data (a + r1.name.length + 1 + r1.seq.length + 1 +
              r1.strand.length + 1) size_ false).1 + 1,
            (SkipToEol data (a + r1.name.length + 1 + r1.seq.length + 1 +
              r1.strand.length + 1) size_ false).2)
        else
          some (a + r1.name.length + 1 + r1.seq.length + 1 +
              r1.strand.length + 1,
            (SkipToEol data ((SkipToEol data (a + r1.name.length + 1 +
                r1.seq.length + 1 + r1.strand.length + 1) size_ false).1 + 1)
              size_ (SkipToEol data (a + r1.name.length + 1 + r1.seq.length +
                1 + r1.strand.length + 1) size_ false).2).2)) =
          some (a + recLen r1, false) := by
      rw [SkipToEol_line data size_ (a + r1.name.length + 1 + r1.seq.length +
        1 + r1.strand.length + 1) r1.quality hq1 hszq1 false _ le_rfl
        (Nat.le_add_right _ _)]
      dsimp only
      rw [hb, if_pos hname2]
    by_cases hc1 : pos ≤ a + r1.name.length
    · rw [SkipToEol_line data size_ a r1.name hn1 hszn1 false pos hpos1 hc1]
      dsimp only
      rw [hscan2 (f + 1)]
      dsimp only
      exact hfinA
    · by_cases hc2 : pos ≤ a + r1.name.length + 1 + r1.seq.length
      · rw [SkipToEol_line data size_ (a + r1.name.length + 1) r1.seq hs1
          hszs1 false pos (by omega) hc2]
        dsimp only
        rw [hscan3 (f + 1 + 1)]
        dsimp only
        exact hfinA
      · by_cases hc3 : pos ≤ a + r1.name.length + 1 + r1.seq.length + 1 +
            r1.strand.length
        · rw [SkipToEol_line data size_ (a + r1.name.length + 1 +
            r1.seq.length + 1) r1.strand ht1 hszt1 false pos (by omega) hc3]
          dsimp only
          rw [hscan4 (f + 1 + 1 + 1)]
          dsimp only
          exact hfinA
        · rw [SkipToEol_line data size_ (a + r1.name.length + 1 +
            r1.seq.length + 1 + r1.strand.length + 1) r1.quality hq1 hszq1
            false pos (by omega) (by omega)]
          dsimp only
          rw [hb, findRecordStartLoop_at data size_ (f + 1 + 1 + 1)
            (a + recLen r1) false hname2]
          dsimp only
          exact hfinB
  · have hscan4 : ∀ g, findRecordStartLoop data size_ (g + 1)
        (a + r1.name.length + 1 + r1.seq.length + 1 + r1.strand.length + 1)
        false = some (a + recLen r1, false) := by
      intro g
      rw [findRecordStartLoop_succ, if_neg hq,
        SkipToEol_line data size_ (a + r1.name.length + 1 + r1.seq.length + 1 +
          r1.strand.length + 1) r1.quality hq1 hszq1 false _ le_rfl
          (Nat.le_add_right _ _)]
      dsimp only
      rw [hb]
      exact findRecordStartLoop_at data size_ g _ false hname2
    have hscan3 : ∀ g, findRecordStartLoop data size_ (g + 1 + 1)
        (a + r1.name.length + 1 + r1.seq.length + 1) false =
        some (a + recLen r1, false) := by
      intro g
      rw [findRecordStartLoop_succ, if_neg hstr1,
        SkipToEol_line data size_ (a + r1.name.length + 1 + r1.seq.length + 1)
          r1.strand ht1 hszt1 false _ le_rfl (Nat.le_add_right _ _)]
      dsimp only
      exact hscan4 g
    have hscan2 : ∀ g, findRecordStartLoop data size_ (g + 1 + 1 + 1)
        (a + r1.name.length + 1) false = some (a + recLen r1, false) := by
      intro g
      rw [findRecordStartLoop_succ, if_neg hseq1,
        SkipToEol_line data size_ (a + r1.name.length + 1) r1.seq hs1 hszs1
          false _ le_rfl (Nat.le_add_right _ _)]
      dsimp only
      exact hscan3 g
    by_cases hc1 : pos ≤ a + r1.name.length
    · rw [SkipToEol_line data size_ a r1.name hn1 hszn1 false pos hpos1 hc1]
      dsimp only
      rw [hscan2 f]
      dsimp only
      exact hfinB
    · by_cases hc2 : pos ≤ a + r1.name.length + 1 + r1.seq.length
      · rw [SkipToEol_line data size_ (a + r1.name.length + 1) r1.seq hs1
          hszs1 false pos (by omega) hc2]
        dsimp only
        rw [hscan3 (f + 1)]
        dsimp only
        exact hfinB
      · by_cases hc3 : pos ≤ a + r1.name.length + 1 + r1.seq.length + 1 +
            r1.strand.length
        · rw [SkipToEol_line data size_ (a + r1.name.length + 1 +
            r1.seq.length + 1) r1.strand ht1 hszt1 false pos (by omega) hc3]
          dsimp only
          rw [hscan4 (f + 1 + 1)]
          dsimp only
          exact hfinB
        · rw [SkipToEol_line data size_ (a + r1.name.length + 1 +
            r1.seq.length + 1 + r1.strand.length + 1) r1.quality hq1 hszq1
            false pos (by omega) (by omega)]
          dsimp only
          rw [hb, findRecordStartLoop_at data size_ (f + 1 + 1 + 1)
            (a + recLen r1) false hname2]
          dsimp only
          exact hfinB

/-- Witness for C3: a concrete buffer whose first record's quality line
starts with `@`; the probe started inside the first record's sequence line
returns the second record's `@` at offset 12. -/
theorem claim_C3_witness :
    GetNextRecordPos 8 (dataAt c3Buf) 5 24 false = some (0 + recLen c3Rec1, false) :=
  claim_C3 (dataAt c3Buf) 24 8 0 5 c3Rec1 c3Rec2 (by decide) (by decide)
    (by decide) (by decide) (by decide) (by decide) (by decide) (by decide)
    (by decide) (by decide)
